import Mathlib

/-!
Verification of the pix pixel-format conversion core.

The development shallowly embeds the channel arithmetic (src/channel.rs),
the alpha codec (src/alpha.rs), the generic conversion pipeline
(src/format.rs) and the Mask pixel format (src/mask.rs).

Machine integers (u8, u16 and the u32/u64 intermediates) are modelled by
natural numbers; every theorem about them carries the range hypotheses
that the Rust types enforce (a u8 value is at most 255, a u16 value at
most 65535), and the intermediate arithmetic is checked to stay below the
wrapping bound so that plain natural-number arithmetic is faithful.

The f32 channel (Ch32) is modelled by the type F32 below: either NaN or a
finite value carried as an exact rational; each arithmetic operation
rounds its exact result to the nearest binary32 value (ties to even) via
rnd32.  Infinities and signed zeros are not distinguished: no code path
exercised by the claims can produce an infinity, and the two zeros are
behaviourally identical in the operations modelled here.
-/

namespace Pix

/-! ### 8-bit channel, from src/channel.rs (struct Ch8 and its impls) -/

/-- Bit replication used by Mul for Ch8: widen to u32 and compute
the value of the Rust expression l = (l shl 4) or (l shr 4). -/
def Ch8.repl (a : ℕ) : ℕ :=
  (a <<< 4) ||| (a >>> 4)

/-- Mul for Ch8 (channel.rs lines 163-177): replicate both operands
and take the high 8 bits of the 16.16 fixed-point product. -/
def Ch8.mul (a b : ℕ) : ℕ :=
  (Ch8.repl a * Ch8.repl b) >>> 16

/-- Div for Ch8 (channel.rs lines 179-196): scale the dividend by 256,
divide, clamp to 255; a zero divisor yields 0. -/
def Ch8.div (a b : ℕ) : ℕ :=
  if 0 < b then min ((a <<< 8) / b) 255 else 0

/-- Add for Ch8: u8 saturating_add. -/
def Ch8.add (a b : ℕ) : ℕ :=
  min (a + b) 255

/-- Sub for Ch8: u8 saturating_sub (truncated subtraction). -/
def Ch8.sub (a b : ℕ) : ℕ :=
  a - b

/-! ### 16-bit channel, from src/channel.rs (struct Ch16 and its impls) -/

/-- Bit replication used by Mul for Ch16: widen to u64 and compute
the value of the Rust expression l = (l shl 8) or (l shr 8). -/
def Ch16.repl (a : ℕ) : ℕ :=
  (a <<< 8) ||| (a >>> 8)

/-- Mul for Ch16 (channel.rs lines 272-286): replicate both operands
and take the high 16 bits of the 32.32 fixed-point product. -/
def Ch16.mul (a b : ℕ) : ℕ :=
  (Ch16.repl a * Ch16.repl b) >>> 32

/-- Div for Ch16 (channel.rs lines 288-305): scale the dividend by 65536,
divide, clamp to 65535; a zero divisor yields 0. -/
def Ch16.div (a b : ℕ) : ℕ :=
  if 0 < b then min ((a <<< 16) / b) 65535 else 0

/-- Add for Ch16: u16 saturating_add. -/
def Ch16.add (a b : ℕ) : ℕ :=
  min (a + b) 65535

/-- Sub for Ch16: u16 saturating_sub. -/
def Ch16.sub (a b : ℕ) : ℕ :=
  a - b

/-! ### Integer width conversions, from src/channel.rs -/

/-- From Ch8 for Ch16 (channel.rs lines 219-224): replicate the byte
into both bytes of the u16. -/
def Ch8.toCh16 (v : ℕ) : ℕ :=
  (v <<< 8) ||| v

/-- From Ch16 for Ch8 (channel.rs lines 244-248): take the high byte. -/
def Ch16.toCh8 (v : ℕ) : ℕ :=
  v >>> 8

/-! ### Kernel-computable rational arithmetic

The rational field operations of the ambient library are marked
irreducible, which blocks proof-by-evaluation; the wrappers below
implement the same operations through the reducible smart constructor
mkRat, and are proved equal to the field operations further down
(qAdd_eq and friends), so every theorem can be read through the ordinary
operations while concrete instances still evaluate. -/

/-- Rational addition through mkRat. -/
def qAdd (a b : ℚ) : ℚ :=
  mkRat (a.num * b.den + b.num * a.den) (a.den * b.den)

/-- Rational subtraction through mkRat. -/
def qSub (a b : ℚ) : ℚ :=
  mkRat (a.num * b.den - b.num * a.den) (a.den * b.den)

/-- Rational multiplication through mkRat. -/
def qMul (a b : ℚ) : ℚ :=
  mkRat (a.num * b.num) (a.den * b.den)

/-- Rational inverse through divInt. -/
def qInv (a : ℚ) : ℚ :=
  Rat.divInt a.den a.num

/-- Rational division through mkRat. -/
def qDiv (a b : ℚ) : ℚ :=
  qMul a (qInv b)

/-- Rational absolute value by case split. -/
def qAbs (a : ℚ) : ℚ :=
  if a < 0 then -a else a

/-! ### Exact model of binary32 rounding

The helpers below compute the IEEE-754 round-to-nearest, ties-to-even
approximation of a rational by a binary32 value (normal or subnormal,
overflow to infinity not modelled; no value exercised by the claims comes
near the overflow threshold). -/

/-- Number of binary digits of a natural number, fuel-bounded so that it
reduces by kernel computation; bitlen fuel n is floor(log2 n) + 1 for
positive n whenever fuel exceeds that quantity. -/
def bitlen : ℕ → ℕ → ℕ
  | 0, _ => 0
  | fuel + 1, n => if n = 0 then 0 else bitlen fuel (n / 2) + 1

/-- Two to an integer power, as a rational. -/
def pow2z (e : ℤ) : ℚ :=
  if 0 ≤ e then ((2 ^ e.toNat : ℕ) : ℚ) else qInv ((2 ^ (-e).toNat : ℕ) : ℚ)

/-- Floor of the base-two logarithm of a positive rational. -/
def qlog2 (q : ℚ) : ℤ :=
  let n := q.num.toNat
  let d := (q.den : ℕ)
  let e : ℤ := (bitlen 500 n : ℤ) - (bitlen 500 d : ℤ)
  if pow2z e ≤ q then e else e - 1

/-- Round a rational to the nearest integer, ties to even. -/
def roundHalfEven (q : ℚ) : ℤ :=
  let f := Rat.floor q
  if qSub q (f : ℚ) < mkRat 1 2 then f
  else if mkRat 1 2 < qSub q (f : ℚ) then f + 1
  else if f % 2 = 0 then f else f + 1

/-- Round a rational to the nearest binary32 value (ties to even), the
rounding applied by every f32 arithmetic operation.  The exponent of the
unit in the last place is floor(log2 q) - 23, bounded below by -149 for
subnormals. -/
def rnd32 (q : ℚ) : ℚ :=
  if q = 0 then 0
  else
    let e : ℤ := max (qlog2 (qAbs q) - 23) (-149)
    let r : ℚ := qMul ((roundHalfEven (qDiv (qAbs q) (pow2z e)) : ℤ) : ℚ) (pow2z e)
    if q < 0 then -r else r

/-! ### 32-bit float channel, from src/channel.rs (struct Ch32) -/

/-- An f32 value: NaN, or a finite value given by its exact rational. -/
inductive F32 where
  | nan : F32
  | fin : ℚ → F32
deriving DecidableEq

/-- f32 addition: NaN propagates, otherwise round the exact sum. -/
def F32.add : F32 → F32 → F32
  | .nan, _ => .nan
  | _, .nan => .nan
  | .fin a, .fin b => .fin (rnd32 (qAdd a b))

/-- f32 subtraction: NaN propagates, otherwise round the exact difference. -/
def F32.sub : F32 → F32 → F32
  | .nan, _ => .nan
  | _, .nan => .nan
  | .fin a, .fin b => .fin (rnd32 (qSub a b))

/-- f32 multiplication: NaN propagates, otherwise round the exact product. -/
def F32.mul : F32 → F32 → F32
  | .nan, _ => .nan
  | _, .nan => .nan
  | .fin a, .fin b => .fin (rnd32 (qMul a b))

/-- f32 division by a nonzero divisor: NaN propagates, otherwise round the
exact quotient; a zero divisor yields NaN here (the source only divides
after testing the divisor against zero, so this case is never reached). -/
def F32.div : F32 → F32 → F32
  | .nan, _ => .nan
  | _, .nan => .nan
  | .fin a, .fin b => if b = 0 then .nan else .fin (rnd32 (qDiv a b))

/-- Rust f32::min: if one operand is NaN the other is returned. -/
def F32.fmin : F32 → F32 → F32
  | .nan, y => y
  | x, .nan => x
  | .fin a, .fin b => .fin (min a b)

/-- Rust f32::max: if one operand is NaN the other is returned. -/
def F32.fmax : F32 → F32 → F32
  | .nan, y => y
  | x, .nan => x
  | .fin a, .fin b => .fin (max a b)

/-- Ch32::new (channel.rs lines 314-323): NaN and negatives clamp to 0.0,
values above 1.0 clamp to 1.0. -/
def Ch32.new (x : F32) : F32 :=
  match x with
  | .nan => .fin 0
  | .fin q => if q < 0 then .fin 0 else if 1 < q then .fin 1 else .fin q

/-- Add for Ch32 (channel.rs lines 391-400): plain f32 sum, then min
with 1.0; note the absence of a lower clamp. -/
def Ch32.add (x rhs : F32) : F32 :=
  F32.fmin (F32.add x rhs) (.fin 1)

/-- Sub for Ch32 (channel.rs lines 402-411): plain f32 difference, then
max with 0.0; note the absence of an upper clamp. -/
def Ch32.sub (x rhs : F32) : F32 :=
  F32.fmax (F32.sub x rhs) (.fin 0)

/-- Mul for Ch32 (channel.rs lines 413-421): the raw f32 product with no
clamping at all. -/
def Ch32.mul (x rhs : F32) : F32 :=
  F32.mul x rhs

/-- Div for Ch32 (channel.rs lines 423-436): if the divisor is greater
than 0.0 (false for NaN), divide and clamp to 1.0; otherwise 0.0. -/
def Ch32.div (x rhs : F32) : F32 :=
  match rhs with
  | .nan => .fin 0
  | .fin v => if 0 < v then F32.fmin (F32.div x (.fin v)) (.fin 1) else .fin 0

/-- Ord for Ch32 (channel.rs lines 385-389) is partial_cmp followed by
unwrap; the comparison of finite values is total, and a NaN operand makes
partial_cmp return None, on which unwrap panics.  None therefore models
the panic. -/
def Ch32.cmpOpt : F32 → F32 → Option Ordering
  | .fin a, .fin b => some (compare a b)
  | _, _ => none

/-! ### Conversions between f32 and the integer widths, from src/channel.rs -/

/-- From Ch8 for Ch32 (channel.rs lines 339-343): the exact u8 value
divided by 255.0, one correctly rounded f32 division. -/
def Ch8.toCh32 (v : ℕ) : F32 :=
  .fin (rnd32 (qDiv (v : ℚ) 255))

/-- From Ch16 for Ch32 (channel.rs lines 377-381). -/
def Ch16.toCh32 (v : ℕ) : F32 :=
  .fin (rnd32 (qDiv (v : ℚ) 65535))

/-- Rust f32::round: round half away from zero, exact on these magnitudes. -/
def f32round (q : ℚ) : ℤ :=
  if 0 ≤ q then Rat.floor (qAdd q (mkRat 1 2)) else -Rat.floor (qAdd (-q) (mkRat 1 2))

/-- From Ch32 for Ch8 (channel.rs lines 357-365): one rounded f32
multiplication by 255.0, f32::round, then the saturating u8 cast
(NaN casts to 0). -/
def Ch32.toCh8 (x : F32) : ℕ :=
  match x with
  | .nan => 0
  | .fin q => min (max (f32round (rnd32 (qMul q 255))) 0).toNat 255

/-- From Ch32 for Ch16 (channel.rs lines 367-375). -/
def Ch32.toCh16 (x : F32) : ℕ :=
  match x with
  | .nan => 0
  | .fin q => min (max (f32round (rnd32 (qMul q 65535))) 0).toNat 65535

/-! ### Alpha and gamma modes, from src/alpha.rs and src/format.rs

The two alpha marker types Straight and Premultiplied and the two gamma
marker types Linear and Srgb are zero-sized Rust types compared through
TypeId in Format::convert; distinct types have distinct TypeIds, so an
enumeration with decidable equality models the comparison exactly. -/

/-- The two alpha modes of src/alpha.rs. -/
inductive AlphaMode where
  | straight : AlphaMode
  | premultiplied : AlphaMode
deriving DecidableEq

/-- The two gamma modes named by src/format.rs. -/
inductive GammaMode where
  | linear : GammaMode
  | srgb : GammaMode
deriving DecidableEq

/-- The channel operations a pixel format's Channel type supplies to the
conversion pipeline: Mul and Div (used by the Premultiplied codec), and
the two sRGB transfer functions.  The gamma module is not part of this
source tree, so the sRGB transfer functions stay abstract parameters;
every pipeline theorem below holds for all choices of them. -/
structure ChanOps (C : Type) where
  mul : C → C → C
  div : C → C → C
  srgbToLinear : C → C
  srgbFromLinear : C → C

/-- Mode::encode (alpha.rs lines 193-213): Straight is the identity,
Premultiplied multiplies the colour by the alpha. -/
def alphaEncode {C : Type} (ops : ChanOps C) : AlphaMode → C → C → C
  | .straight, c, _ => c
  | .premultiplied, c, a => ops.mul c a

/-- Mode::decode (alpha.rs lines 193-213): Straight is the identity,
Premultiplied divides the colour by the alpha. -/
def alphaDecode {C : Type} (ops : ChanOps C) : AlphaMode → C → C → C
  | .straight, c, _ => c
  | .premultiplied, c, a => ops.div c a

/-- Gamma to_linear dispatch.  Modelled from the spec: Linear mode is the
identity in both directions (gamma.rs is not under src/); the Srgb case
applies the abstract transfer function. -/
def gammaToLinear {C : Type} (ops : ChanOps C) : GammaMode → C → C
  | .linear, c => c
  | .srgb, c => ops.srgbToLinear c

/-- Gamma from_linear dispatch.  Modelled from the spec: Linear mode is
the identity in both directions (gamma.rs is not under src/); the Srgb
case applies the abstract inverse transfer function. -/
def gammaFromLinear {C : Type} (ops : ChanOps C) : GammaMode → C → C
  | .linear, c => c
  | .srgb, c => ops.srgbFromLinear c

/-- The rgba array of four channels used by Format::convert. -/
structure Rgba (C : Type) where
  r : C
  g : C
  b : C
  a : C
deriving DecidableEq

/-- Apply a channel conversion to all four channels (the bit-depth
rescale step of Format::convert). -/
def Rgba.map {CA CB : Type} (f : CA → CB) (x : Rgba CA) : Rgba CB :=
  ⟨f x.r, f x.g, f x.b, f x.a⟩

/-- The compile-time tag of a pixel format: its alpha mode and gamma
mode, the data consulted by the TypeId comparisons of Format::convert. -/
structure FmtTag where
  alpha : AlphaMode
  gamma : GammaMode
deriving DecidableEq

/-- convert_alpha_gamma (format.rs lines 126-149), with S and D the
source and destination tags: convert r, g, b to linear gamma; if the
alpha modes differ, decode with the source alpha mode then encode with
the destination alpha mode, each using the (already rescaled) alpha
channel; finally convert r, g, b to the destination gamma.  The alpha
slot is written through unchanged. -/
def convert_alpha_gamma {C : Type} (ops : ChanOps C) (S D : FmtTag)
    (x : Rgba C) : Rgba C :=
  let r0 := gammaToLinear ops S.gamma x.r
  let g0 := gammaToLinear ops S.gamma x.g
  let b0 := gammaToLinear ops S.gamma x.b
  let rgb :=
    if S.alpha ≠ D.alpha then
      let r1 := alphaDecode ops S.alpha r0 x.a
      let g1 := alphaDecode ops S.alpha g0 x.a
      let b1 := alphaDecode ops S.alpha b0 x.a
      (alphaEncode ops D.alpha r1 x.a, alphaEncode ops D.alpha g1 x.a,
       alphaEncode ops D.alpha b1 x.a)
    else
      (r0, g0, b0)
  ⟨gammaFromLinear ops D.gamma rgb.1, gammaFromLinear ops D.gamma rgb.2.1,
   gammaFromLinear ops D.gamma rgb.2.2, x.a⟩

/-- The channel-array part of Format::convert (format.rs lines 103-122):
rescale all four channels to the destination bit depth, then run
convert_alpha_gamma exactly when the alpha TypeIds or the gamma TypeIds
differ. -/
def Format.convertRgba {CA CB : Type} (ops : ChanOps CB) (S D : FmtTag)
    (chanFrom : CA → CB) (x : Rgba CA) : Rgba CB :=
  let y := Rgba.map chanFrom x
  if S.alpha ≠ D.alpha ∨ S.gamma ≠ D.gamma then
    convert_alpha_gamma ops S D y
  else
    y

/-- A pixel format: its tag together with the rgba decomposition and
with_rgba reconstruction of the Format trait (format.rs lines 78-98). -/
structure Format (P C : Type) where
  tag : FmtTag
  rgba : P → Rgba C
  with_rgba : Rgba C → P

/-- Format::convert (format.rs lines 103-122): decompose, convert the
channel array, reassemble.  The chanFrom argument stands for the
D::Chan: From<Self::Chan> bit-depth conversion; converting a format to
itself instantiates it with the blanket identity From impl. -/
def Format.convert {PA CA PB CB : Type} (ops : ChanOps CB)
    (S : Format PA CA) (D : Format PB CB) (chanFrom : CA → CB) (p : PA) : PB :=
  D.with_rgba (Format.convertRgba ops S.tag D.tag chanFrom (S.rgba p))

/-- Modelled from the spec, section 4.4: the per-channel transform of
step 3 of the conversion algorithm, applied to each of r, g, b: source
gamma to_linear, then (only if the alpha modes differ) source alpha
decode followed by destination alpha encode against the alpha channel,
then destination gamma from_linear. -/
def specChannelTransform {C : Type} (ops : ChanOps C) (S D : FmtTag)
    (a c : C) : C :=
  let c1 := gammaToLinear ops S.gamma c
  let c2 :=
    if S.alpha ≠ D.alpha then
      alphaEncode ops D.alpha (alphaDecode ops S.alpha c1 a) a
    else c1
  gammaFromLinear ops D.gamma c2

/-- Modelled from the spec, section 4.4: the full conversion pipeline as
the spec states it.  Extract the four channels, rescale each to the
destination width; if the source AlphaMode/GammaMode tuple differs from
the destination tuple apply the step-3 transform to r, g, b (never to
alpha); if the tuples are identical skip that step entirely (pure
bit-depth rescale). -/
def convertSpecRgba {CA CB : Type} (ops : ChanOps CB) (S D : FmtTag)
    (chanFrom : CA → CB) (x : Rgba CA) : Rgba CB :=
  let y := Rgba.map chanFrom x
  if (S.alpha, S.gamma) = (D.alpha, D.gamma) then y
  else
    ⟨specChannelTransform ops S D y.a y.r, specChannelTransform ops S D y.a y.g,
     specChannelTransform ops S D y.a y.b, y.a⟩

/-! ### The Mask pixel format, from src/mask.rs

Mask is the concrete Format implementation contained in this source
tree: it stores one translucent alpha channel; rgba yields
(MAX, MAX, MAX, alpha) and with_rgba keeps only the alpha slot
(mask.rs lines 130-163). -/

/-- The Mask pixel format over a channel type with the given MAX value;
its alpha mode is Straight and its gamma mode Linear. -/
def maskFmt {C : Type} (maxC : C) : Format C C :=
  ⟨⟨.straight, .linear⟩, fun m => ⟨maxC, maxC, maxC, m⟩, fun x => x.a⟩

/-- Mask with 8-bit channels (Mask8). -/
def mask8Fmt : Format ℕ ℕ :=
  maskFmt 255

/-- The ChanOps bundle of the 8-bit channel.  Mul and Div come from
channel.rs; the sRGB transfer slots, which belong to the gamma module
that is not part of this source tree, are filled with the identity and
are never reached by the linear-gamma formats used in the witnesses. -/
def ch8ops : ChanOps ℕ :=
  ⟨Ch8.mul, Ch8.div, id, id⟩

/-- The ChanOps bundle of the 32-bit float channel, Mul and Div from
channel.rs; the sRGB slots are identity placeholders as in ch8ops. -/
def ch32ops : ChanOps F32 :=
  ⟨Ch32.mul, Ch32.div, id, id⟩

/-- The ChanOps bundle of the 16-bit channel, Mul and Div from
channel.rs; the sRGB slots are identity placeholders as in ch8ops. -/
def ch16ops : ChanOps ℕ :=
  ⟨Ch16.mul, Ch16.div, id, id⟩

/-! ### Lemmas -/

/-- The computable rational addition agrees with the field addition. -/
theorem qAdd_eq (a b : ℚ) : qAdd a b = a + b :=
  (Rat.add_def' a b).symm

/-- The computable rational subtraction agrees with the field subtraction. -/
theorem qSub_eq (a b : ℚ) : qSub a b = a - b :=
  (Rat.sub_def' a b).symm

/-- The computable rational multiplication agrees with the field one. -/
theorem qMul_eq (a b : ℚ) : qMul a b = a * b := by
  rw [qMul, Rat.mul_def, Rat.normalize_eq_mkRat]

/-- The computable rational inverse agrees with the field inverse. -/
theorem qInv_eq (a : ℚ) : qInv a = a⁻¹ := by
  show Rat.divInt a.den a.num = a.inv
  rw [Rat.inv_def]

/-- The computable rational division agrees with the field division. -/
theorem qDiv_eq (a b : ℚ) : qDiv a b = a / b := by
  rw [qDiv, qMul_eq, qInv_eq]
  rfl

/-- The computable rational absolute value agrees with the lattice one. -/
theorem qAbs_eq (a : ℚ) : qAbs a = |a| := by
  rw [qAbs]
  by_cases h : a < 0
  · rw [if_pos h, abs_of_neg h]
  · rw [if_neg h, abs_of_nonneg (le_of_not_lt h)]

/-- An or of a multiple of 2^k with a value below 2^k is their sum. -/
theorem lor_eq_add_pow (k x y : ℕ) (hy : y < 2 ^ k) :
    (2 ^ k * x) ||| y = 2 ^ k * x + y :=
  (Nat.mul_add_lt_is_or hy x).symm

/-- Bit replication for the 8-bit width, arithmetically. -/
theorem ch8_repl_eq (a : ℕ) (ha : a ≤ 255) :
    Ch8.repl a = 16 * a + a / 16 := by
  have h16 : a / 16 < 2 ^ 4 := by omega
  have := lor_eq_add_pow 4 a (a / 16) h16
  rw [Ch8.repl, Nat.shiftLeft_eq, Nat.shiftRight_eq_div_pow]
  norm_num at this ⊢
  rw [Nat.mul_comm a 16]
  exact this

/-- Bit replication for the 16-bit width, arithmetically. -/
theorem ch16_repl_eq (a : ℕ) (ha : a ≤ 65535) :
    Ch16.repl a = 256 * a + a / 256 := by
  have h256 : a / 256 < 2 ^ 8 := by omega
  have := lor_eq_add_pow 8 a (a / 256) h256
  rw [Ch16.repl, Nat.shiftLeft_eq, Nat.shiftRight_eq_div_pow]
  norm_num at this ⊢
  rw [Nat.mul_comm a 256]
  exact this

/-- The widening conversion, arithmetically: byte replication is
multiplication by 257. -/
theorem ch8_toCh16_eq (v : ℕ) (hv : v ≤ 255) :
    Ch8.toCh16 v = 257 * v := by
  have h : v < 2 ^ 8 := by omega
  have := lor_eq_add_pow 8 v v h
  rw [Ch8.toCh16, Nat.shiftLeft_eq, Nat.mul_comm v (2 ^ 8)]
  norm_num at this ⊢
  omega

/-- The narrowing conversion, arithmetically: the high byte is the
quotient by 256 (truncation). -/
theorem ch16_toCh8_eq (v : ℕ) : Ch16.toCh8 v = v / 256 := by
  rw [Ch16.toCh8, Nat.shiftRight_eq_div_pow]

/-- The algebraic identity behind the accuracy of the 8-bit replicated
fixed-point multiply, stated on the decompositions a = 16 qa + sa and
b = 16 qb + sb. -/
theorem fixmul8_identity (qa sa qb sb : ℕ) :
    255 * ((257 * qa + 16 * sa) * (257 * qb + 16 * sb)) + 256 * (sa * sb)
      + 16 * (qb * sa) + 16 * (qa * sb)
      = 65536 * ((16 * qa + sa) * (16 * qb + sb)) + 65279 * (qa * qb) := by
  ring

/-- The algebraic identity behind the accuracy of the 16-bit replicated
fixed-point multiply, stated on the decompositions a = 256 qa + sa and
b = 256 qb + sb. -/
theorem fixmul16_identity (qa sa qb sb : ℕ) :
    65535 * ((65537 * qa + 256 * sa) * (65537 * qb + 256 * sb))
      + 65536 * (sa * sb) + 256 * (qb * sa) + 256 * (qa * sb)
      = 4294967296 * ((256 * qa + sa) * (256 * qb + sb))
        + 4294901759 * (qa * qb) := by
  ring

/-- Linear-arithmetic core of the 8-bit multiply accuracy bound, with
all products abstracted into atoms. -/
theorem fixmul8_atoms (L R m AB x y z w : ℕ)
    (hkey : 255 * L + 256 * x + 16 * y + 16 * z = 65536 * AB + 65279 * w)
    (hx : x ≤ 225) (hy : y ≤ 225) (hz : z ≤ 225) (hw : w ≤ 225)
    (hm : m < 65536) (hRL : L = 65536 * R + m) :
    255 * R ≤ AB + 255 ∧ AB ≤ 255 * R + 255 := by
  omega

/-- Linear-arithmetic core of the 16-bit multiply accuracy bound. -/
theorem fixmul16_atoms (L R m AB x y z w : ℕ)
    (hkey : 65535 * L + 65536 * x + 256 * y + 256 * z
      = 4294967296 * AB + 4294901759 * w)
    (hx : x ≤ 65025) (hy : y ≤ 65025) (hz : z ≤ 65025) (hw : w ≤ 65025)
    (hm : m < 4294967296) (hRL : L = 4294967296 * R + m) :
    65535 * R ≤ AB + 65535 ∧ AB ≤ 65535 * R + 65535 := by
  omega

/-- Accuracy of Mul for Ch8: the result is within one 8-bit unit of the
true rational product a*b/255. -/
theorem ch8_mul_accurate (a b : ℕ) (ha : a ≤ 255) (hb : b ≤ 255) :
    255 * Ch8.mul a b ≤ a * b + 255 ∧ a * b ≤ 255 * Ch8.mul a b + 255 := by
  obtain ⟨qa, sa, hsa, rfl⟩ : ∃ q s, s < 16 ∧ a = 16 * q + s :=
    ⟨a / 16, a % 16, Nat.mod_lt _ (by norm_num), by omega⟩
  obtain ⟨qb, sb, hsb, rfl⟩ : ∃ q s, s < 16 ∧ b = 16 * q + s :=
    ⟨b / 16, b % 16, Nat.mod_lt _ (by norm_num), by omega⟩
  have hqa : qa ≤ 15 := by omega
  have hqb : qb ≤ 15 := by omega
  have hra : Ch8.repl (16 * qa + sa) = 257 * qa + 16 * sa := by
    rw [ch8_repl_eq _ (by omega)]
    omega
  have hrb : Ch8.repl (16 * qb + sb) = 257 * qb + 16 * sb := by
    rw [ch8_repl_eq _ (by omega)]
    omega
  have hmul : Ch8.mul (16 * qa + sa) (16 * qb + sb)
      = ((257 * qa + 16 * sa) * (257 * qb + 16 * sb)) / 65536 := by
    rw [Ch8.mul, hra, hrb, Nat.shiftRight_eq_div_pow]
  rw [hmul]
  exact fixmul8_atoms ((257 * qa + 16 * sa) * (257 * qb + 16 * sb)) _
    (((257 * qa + 16 * sa) * (257 * qb + 16 * sb)) % 65536) _
    (sa * sb) (qb * sa) (qa * sb) (qa * qb)
    (fixmul8_identity qa sa qb sb)
    (Nat.mul_le_mul (show sa ≤ 15 by omega) (show sb ≤ 15 by omega))
    (Nat.mul_le_mul (show qb ≤ 15 by omega) (show sa ≤ 15 by omega))
    (Nat.mul_le_mul (show qa ≤ 15 by omega) (show sb ≤ 15 by omega))
    (Nat.mul_le_mul (show qa ≤ 15 by omega) (show qb ≤ 15 by omega))
    (Nat.mod_lt _ (by norm_num)) (by omega)

/-- Accuracy of Mul for Ch16: the result is within one 16-bit unit of
the true rational product a*b/65535. -/
theorem ch16_mul_accurate (a b : ℕ) (ha : a ≤ 65535) (hb : b ≤ 65535) :
    65535 * Ch16.mul a b ≤ a * b + 65535 ∧
      a * b ≤ 65535 * Ch16.mul a b + 65535 := by
  obtain ⟨qa, sa, hsa, rfl⟩ : ∃ q s, s < 256 ∧ a = 256 * q + s :=
    ⟨a / 256, a % 256, Nat.mod_lt _ (by norm_num), by omega⟩
  obtain ⟨qb, sb, hsb, rfl⟩ : ∃ q s, s < 256 ∧ b = 256 * q + s :=
    ⟨b / 256, b % 256, Nat.mod_lt _ (by norm_num), by omega⟩
  have hqa : qa ≤ 255 := by omega
  have hqb : qb ≤ 255 := by omega
  have hra : Ch16.repl (256 * qa + sa) = 65537 * qa + 256 * sa := by
    rw [ch16_repl_eq _ (by omega)]
    omega
  have hrb : Ch16.repl (256 * qb + sb) = 65537 * qb + 256 * sb := by
    rw [ch16_repl_eq _ (by omega)]
    omega
  have hmul : Ch16.mul (256 * qa + sa) (256 * qb + sb)
      = ((65537 * qa + 256 * sa) * (65537 * qb + 256 * sb)) / 4294967296 := by
    rw [Ch16.mul, hra, hrb, Nat.shiftRight_eq_div_pow]
  rw [hmul]
  exact fixmul16_atoms ((65537 * qa + 256 * sa) * (65537 * qb + 256 * sb)) _
    (((65537 * qa + 256 * sa) * (65537 * qb + 256 * sb)) % 4294967296) _
    (sa * sb) (qb * sa) (qa * sb) (qa * qb)
    (fixmul16_identity qa sa qb sb)
    (Nat.mul_le_mul (show sa ≤ 255 by omega) (show sb ≤ 255 by omega))
    (Nat.mul_le_mul (show qb ≤ 255 by omega) (show sa ≤ 255 by omega))
    (Nat.mul_le_mul (show qa ≤ 255 by omega) (show sb ≤ 255 by omega))
    (Nat.mul_le_mul (show qa ≤ 255 by omega) (show qb ≤ 255 by omega))
    (Nat.mod_lt _ (by norm_num)) (by omega)

/-- Multiplying by MAX is monotonic for Ch8. -/
theorem ch8_mul_max_mono (x y : ℕ) (hxy : x ≤ y) (hy : y ≤ 255) :
    Ch8.mul 255 x ≤ Ch8.mul 255 y := by
  rw [Ch8.mul, Ch8.mul, Nat.shiftRight_eq_div_pow, Nat.shiftRight_eq_div_pow]
  apply Nat.div_le_div_right
  apply Nat.mul_le_mul_left
  rw [ch8_repl_eq x (by omega), ch8_repl_eq y hy]
  omega

/-- Multiplying by MAX is monotonic for Ch16. -/
theorem ch16_mul_max_mono (x y : ℕ) (hxy : x ≤ y) (hy : y ≤ 65535) :
    Ch16.mul 65535 x ≤ Ch16.mul 65535 y := by
  rw [Ch16.mul, Ch16.mul, Nat.shiftRight_eq_div_pow, Nat.shiftRight_eq_div_pow]
  apply Nat.div_le_div_right
  apply Nat.mul_le_mul_left
  rw [ch16_repl_eq x (by omega), ch16_repl_eq y hy]
  omega

/-- Multiplying by MAX never exceeds the operand, 8-bit width. -/
theorem ch8_mul_max_le (x : ℕ) (hx : x ≤ 255) : Ch8.mul 255 x ≤ x := by
  rw [Ch8.mul, ch8_repl_eq 255 (by norm_num), ch8_repl_eq x hx,
    Nat.shiftRight_eq_div_pow]
  norm_num
  omega

/-- Multiplying by MAX never exceeds the operand, 16-bit width. -/
theorem ch16_mul_max_le (x : ℕ) (hx : x ≤ 65535) : Ch16.mul 65535 x ≤ x := by
  rw [Ch16.mul, ch16_repl_eq 65535 (by norm_num), ch16_repl_eq x hx,
    Nat.shiftRight_eq_div_pow]
  norm_num
  omega

/-- Unfolding of Div for Ch8 at a positive divisor. -/
theorem ch8_div_eq_of_pos (x a : ℕ) (ha : 0 < a) :
    Ch8.div x a = min ((x * 256) / a) 255 := by
  rw [Ch8.div, if_pos ha, Nat.shiftLeft_eq]

/-- Unfolding of Div for Ch16 at a positive divisor. -/
theorem ch16_div_eq_of_pos (x a : ℕ) (ha : 0 < a) :
    Ch16.div x a = min ((x * 65536) / a) 65535 := by
  rw [Ch16.div, if_pos ha, Nat.shiftLeft_eq]

/-- The Premultiplied round trip decode (encode c a) a stays within
ceil(255/a) = 254/a + 1 units of c for the 8-bit width. -/
theorem ch8_premul_roundtrip (c a : ℕ) (hc : c ≤ 255) (ha1 : 1 ≤ a)
    (ha : a ≤ 255) :
    Ch8.div (Ch8.mul c a) a ≤ c + (254 / a + 1) ∧
      c ≤ Ch8.div (Ch8.mul c a) a + (254 / a + 1) := by
  obtain ⟨k, m, hm, hkm⟩ : ∃ k m, m < a ∧ 254 = a * k + m :=
    ⟨254 / a, 254 % a, Nat.mod_lt _ (by omega), (Nat.div_add_mod 254 a).symm⟩
  have hkdef : 254 / a = k := by
    rw [hkm, Nat.mul_add_div (by omega), Nat.div_eq_of_lt hm, Nat.add_zero]
  have hacc := ch8_mul_accurate c a hc ha
  obtain ⟨q, r, hr, hqr⟩ : ∃ q r, r < a ∧ Ch8.mul c a * 256 = a * q + r :=
    ⟨Ch8.mul c a * 256 / a, Ch8.mul c a * 256 % a,
      Nat.mod_lt _ (by omega), (Nat.div_add_mod (Ch8.mul c a * 256) a).symm⟩
  have hqdef : Ch8.mul c a * 256 / a = q := by
    rw [hqr, Nat.mul_add_div (by omega), Nat.div_eq_of_lt hr, Nat.add_zero]
  have hdiv : Ch8.div (Ch8.mul c a) a = min q 255 := by
    rw [ch8_div_eq_of_pos _ _ (by omega), hqdef]
  rw [hdiv, hkdef]
  have hcomm : c * a = a * c := Nat.mul_comm c a
  constructor
  · by_cases hbig : 255 ≤ c + (k + 1)
    · exact le_trans (Nat.min_le_right _ _) (by omega)
    · have hca : a * c + a * k + a + a ≤ 255 * a := by
        calc a * c + a * k + a + a = a * (c + k + 2) := by ring
          _ ≤ a * 255 := Nat.mul_le_mul_left a (by omega)
          _ = 255 * a := Nat.mul_comm a 255
      have hlin : a * q < a * c + a * k + a + a := by omega
      have hlt : q < c + k + 2 := by
        have h2 : a * q < a * (c + k + 2) := by
          calc a * q < a * c + a * k + a + a := hlin
            _ = a * (c + k + 2) := by ring
        exact Nat.lt_of_mul_lt_mul_left h2
      omega
  · by_cases hclamp : q ≤ 255
    · have hmin : min q 255 = q := by omega
      rw [hmin]
      by_cases hc0 : c = 0
      · omega
      · have hca1 : 1 ≤ c * a := Nat.mul_pos (by omega) (by omega)
        have hlin : a * c < a * q + a * k + a + a := by omega
        have hlt : c < q + k + 2 := by
          have h2 : a * c < a * (q + k + 2) := by
            calc a * c < a * q + a * k + a + a := hlin
              _ = a * (q + k + 2) := by ring
          exact Nat.lt_of_mul_lt_mul_left h2
        omega
    · have hmin : min q 255 = 255 := by omega
      rw [hmin]
      omega

/-- The Premultiplied round trip decode (encode c a) a stays within
ceil(65535/a) = 65534/a + 1 units of c for the 16-bit width. -/
theorem ch16_premul_roundtrip (c a : ℕ) (hc : c ≤ 65535) (ha1 : 1 ≤ a)
    (ha : a ≤ 65535) :
    Ch16.div (Ch16.mul c a) a ≤ c + (65534 / a + 1) ∧
      c ≤ Ch16.div (Ch16.mul c a) a + (65534 / a + 1) := by
  obtain ⟨k, m, hm, hkm⟩ : ∃ k m, m < a ∧ 65534 = a * k + m :=
    ⟨65534 / a, 65534 % a, Nat.mod_lt _ (by omega), (Nat.div_add_mod 65534 a).symm⟩
  have hkdef : 65534 / a = k := by
    rw [hkm, Nat.mul_add_div (by omega), Nat.div_eq_of_lt hm, Nat.add_zero]
  have hacc := ch16_mul_accurate c a hc ha
  obtain ⟨q, r, hr, hqr⟩ : ∃ q r, r < a ∧ Ch16.mul c a * 65536 = a * q + r :=
    ⟨Ch16.mul c a * 65536 / a, Ch16.mul c a * 65536 % a,
      Nat.mod_lt _ (by omega), (Nat.div_add_mod (Ch16.mul c a * 65536) a).symm⟩
  have hqdef : Ch16.mul c a * 65536 / a = q := by
    rw [hqr, Nat.mul_add_div (by omega), Nat.div_eq_of_lt hr, Nat.add_zero]
  have hdiv : Ch16.div (Ch16.mul c a) a = min q 65535 := by
    rw [ch16_div_eq_of_pos _ _ (by omega), hqdef]
  rw [hdiv, hkdef]
  have hcomm : c * a = a * c := Nat.mul_comm c a
  constructor
  · by_cases hbig : 65535 ≤ c + (k + 1)
    · exact le_trans (Nat.min_le_right _ _) (by omega)
    · have hca : a * c + a * k + a + a ≤ 65535 * a := by
        calc a * c + a * k + a + a = a * (c + k + 2) := by ring
          _ ≤ a * 65535 := Nat.mul_le_mul_left a (by omega)
          _ = 65535 * a := Nat.mul_comm a 65535
      have hlin : a * q < a * c + a * k + a + a := by omega
      have hlt : q < c + k + 2 := by
        have h2 : a * q < a * (c + k + 2) := by
          calc a * q < a * c + a * k + a + a := hlin
            _ = a * (c + k + 2) := by ring
        exact Nat.lt_of_mul_lt_mul_left h2
      omega
  · by_cases hclamp : q ≤ 65535
    · have hmin : min q 65535 = q := by omega
      rw [hmin]
      by_cases hc0 : c = 0
      · omega
      · have hca1 : 1 ≤ c * a := Nat.mul_pos (by omega) (by omega)
        have hlin : a * c < a * q + a * k + a + a := by omega
        have hlt : c < q + k + 2 := by
          have h2 : a * c < a * (q + k + 2) := by
            calc a * c < a * q + a * k + a + a := hlin
              _ = a * (q + k + 2) := by ring
          exact Nat.lt_of_mul_lt_mul_left h2
        omega
    · have hmin : min q 65535 = 65535 := by omega
      rw [hmin]
      omega

/-- The reverse Premultiplied round trip encode (decode c a) a stays
within one unit of c when c is at most a (a valid premultiplied pair),
8-bit width. -/
theorem ch8_premul_reverse (c a : ℕ) (hca : c ≤ a) (ha1 : 1 ≤ a)
    (ha : a ≤ 255) :
    Ch8.mul (Ch8.div c a) a ≤ c + 1 ∧ c ≤ Ch8.mul (Ch8.div c a) a + 1 := by
  obtain ⟨q, r, hr, hqr⟩ : ∃ q r, r < a ∧ c * 256 = a * q + r :=
    ⟨c * 256 / a, c * 256 % a, Nat.mod_lt _ (by omega),
      (Nat.div_add_mod (c * 256) a).symm⟩
  have hqdef : c * 256 / a = q := by
    rw [hqr, Nat.mul_add_div (by omega), Nat.div_eq_of_lt hr, Nat.add_zero]
  have hdiv : Ch8.div c a = min q 255 := by
    rw [ch8_div_eq_of_pos _ _ (by omega), hqdef]
  by_cases hcl : 255 ≤ q
  · have hdval : Ch8.div c a = 255 := by
      rw [hdiv]
      omega
    rw [hdval]
    have hacc := ch8_mul_accurate 255 a (by norm_num) ha
    have hle := ch8_mul_max_le a ha
    have h255a : a * 255 ≤ a * q := Nat.mul_le_mul_left a hcl
    have hcomm : a * 255 = 255 * a := Nat.mul_comm a 255
    omega
  · have hdval : Ch8.div c a = q := by
      rw [hdiv]
      omega
    rw [hdval]
    have hclt : c < a := by
      rcases Nat.lt_or_ge c a with h | h
      · exact h
      · exfalso
        have hceq : c = a := by omega
        have hmul : a * 255 < a * q := by omega
        have := Nat.lt_of_mul_lt_mul_left hmul
        omega
    have hacc := ch8_mul_accurate q a (by omega) ha
    have hcomm : q * a = a * q := Nat.mul_comm q a
    omega

/-- The reverse Premultiplied round trip encode (decode c a) a stays
within one unit of c when c is at most a, 16-bit width. -/
theorem ch16_premul_reverse (c a : ℕ) (hca : c ≤ a) (ha1 : 1 ≤ a)
    (ha : a ≤ 65535) :
    Ch16.mul (Ch16.div c a) a ≤ c + 1 ∧
      c ≤ Ch16.mul (Ch16.div c a) a + 1 := by
  obtain ⟨q, r, hr, hqr⟩ : ∃ q r, r < a ∧ c * 65536 = a * q + r :=
    ⟨c * 65536 / a, c * 65536 % a, Nat.mod_lt _ (by omega),
      (Nat.div_add_mod (c * 65536) a).symm⟩
  have hqdef : c * 65536 / a = q := by
    rw [hqr, Nat.mul_add_div (by omega), Nat.div_eq_of_lt hr, Nat.add_zero]
  have hdiv : Ch16.div c a = min q 65535 := by
    rw [ch16_div_eq_of_pos _ _ (by omega), hqdef]
  by_cases hcl : 65535 ≤ q
  · have hdval : Ch16.div c a = 65535 := by
      rw [hdiv]
      omega
    rw [hdval]
    have hacc := ch16_mul_accurate 65535 a (by norm_num) ha
    have hle := ch16_mul_max_le a ha
    have h65535a : a * 65535 ≤ a * q := Nat.mul_le_mul_left a hcl
    have hcomm : a * 65535 = 65535 * a := Nat.mul_comm a 65535
    omega
  · have hdval : Ch16.div c a = q := by
      rw [hdiv]
      omega
    rw [hdval]
    have hclt : c < a := by
      rcases Nat.lt_or_ge c a with h | h
      · exact h
      · exfalso
        have hceq : c = a := by omega
        have hmul : a * 65535 < a * q := by omega
        have := Nat.lt_of_mul_lt_mul_left hmul
        omega
    have hacc := ch16_mul_accurate q a (by omega) ha
    have hcomm : q * a = a * q := Nat.mul_comm q a
    omega

/-- Mapping the identity over an rgba array is the identity. -/
theorem Rgba.map_id {C : Type} (x : Rgba C) : Rgba.map id x = x :=
  rfl

/-- The channel-array conversion of Format::convert coincides with the
conversion pipeline exactly as the spec words it, for every choice of
channel operations, source and destination tags, and rescale function. -/
theorem convertRgba_eq_spec {CA CB : Type} (ops : ChanOps CB) (S D : FmtTag)
    (chanFrom : CA → CB) (x : Rgba CA) :
    Format.convertRgba ops S D chanFrom x = convertSpecRgba ops S D chanFrom x := by
  rcases S with ⟨sa, sg⟩
  rcases D with ⟨da, dg⟩
  by_cases hA : sa = da <;> by_cases hG : sg = dg <;>
    simp [Format.convertRgba, convertSpecRgba, convert_alpha_gamma,
      specChannelTransform, Rgba.map, hA, hG]

/-- The alpha slot is only rescaled: convert_alpha_gamma writes it
through unchanged, whatever the tags. -/
theorem convertRgba_alpha {CA CB : Type} (ops : ChanOps CB) (S D : FmtTag)
    (chanFrom : CA → CB) (x : Rgba CA) :
    (Format.convertRgba ops S D chanFrom x).a = chanFrom x.a := by
  by_cases h : S.alpha ≠ D.alpha ∨ S.gamma ≠ D.gamma <;>
    simp [Format.convertRgba, convert_alpha_gamma, Rgba.map, h]

/-- With identical tags the alpha/gamma step is skipped entirely and the
conversion is the pure bit-depth rescale. -/
theorem convertRgba_self {CA CB : Type} (ops : ChanOps CB) (S : FmtTag)
    (chanFrom : CA → CB) (x : Rgba CA) :
    Format.convertRgba ops S S chanFrom x = Rgba.map chanFrom x := by
  simp [Format.convertRgba]

/-- Div for Ch8 at a zero divisor. -/
theorem ch8_div_zero (a : ℕ) : Ch8.div a 0 = 0 := by
  simp [Ch8.div]

/-- Div for Ch16 at a zero divisor. -/
theorem ch16_div_zero (a : ℕ) : Ch16.div a 0 = 0 := by
  simp [Ch16.div]

/-- Div for Ch8 never exceeds MAX. -/
theorem ch8_div_le_max (a b : ℕ) : Ch8.div a b ≤ 255 := by
  rw [Ch8.div]
  split <;> omega

/-- Div for Ch16 never exceeds MAX. -/
theorem ch16_div_le_max (a b : ℕ) : Ch16.div a b ≤ 65535 := by
  rw [Ch16.div]
  split <;> omega

/-- Div for Ch8 clamps to MAX exactly when the scaled quotient would
exceed it, and returns the scaled quotient otherwise. -/
theorem ch8_div_cases (a b : ℕ) (hb : 0 < b) :
    (255 < a * 256 / b → Ch8.div a b = 255) ∧
      (a * 256 / b ≤ 255 → Ch8.div a b = a * 256 / b) := by
  rw [ch8_div_eq_of_pos _ _ hb]
  omega

/-- Div for Ch16 clamps to MAX exactly when the scaled quotient would
exceed it, and returns the scaled quotient otherwise. -/
theorem ch16_div_cases (a b : ℕ) (hb : 0 < b) :
    (65535 < a * 65536 / b → Ch16.div a b = 65535) ∧
      (a * 65536 / b ≤ 65535 → Ch16.div a b = a * 65536 / b) := by
  rw [ch16_div_eq_of_pos _ _ hb]
  omega

/-- Div for Ch32 at a zero divisor. -/
theorem ch32_div_zero (x : F32) : Ch32.div x (.fin 0) = .fin 0 := by
  simp [Ch32.div]

/-- Div for Ch32 at a positive divisor divides and clamps to 1.0. -/
theorem ch32_div_cases (q v : ℚ) (hv : 0 < v) :
    (1 < rnd32 (qDiv q v) → Ch32.div (.fin q) (.fin v) = .fin 1) ∧
      (rnd32 (qDiv q v) ≤ 1 → Ch32.div (.fin q) (.fin v) = .fin (rnd32 (qDiv q v))) := by
  have hv0 : v ≠ 0 := ne_of_gt hv
  constructor
  · intro h
    simp [Ch32.div, hv, F32.div, hv0, F32.fmin, min_eq_right (le_of_lt h)]
  · intro h
    simp [Ch32.div, hv, F32.div, hv0, F32.fmin, min_eq_left h]

/-- Premultiplied decode at zero alpha yields zero, 8-bit width. -/
theorem decode_zero_alpha8 (c : ℕ) :
    alphaDecode ch8ops .premultiplied c 0 = 0 := by
  simp [alphaDecode, ch8ops, Ch8.div]

/-- Premultiplied decode at zero alpha yields zero, 16-bit width. -/
theorem decode_zero_alpha16 (c : ℕ) :
    alphaDecode ch16ops .premultiplied c 0 = 0 := by
  simp [alphaDecode, ch16ops, Ch16.div]

/-- Premultiplied decode at zero alpha yields zero, float width. -/
theorem decode_zero_alpha32 (x : F32) :
    alphaDecode ch32ops .premultiplied x (.fin 0) = .fin 0 := by
  simp [alphaDecode, ch32ops, Ch32.div]

/-- The computable rational multiplication is commutative. -/
theorem qMul_comm (a b : ℚ) : qMul a b = qMul b a := by
  rw [qMul, qMul, Int.mul_comm, Nat.mul_comm]

/-- Mul for Ch8 is commutative. -/
theorem ch8_mul_comm (a b : ℕ) : Ch8.mul a b = Ch8.mul b a := by
  rw [Ch8.mul, Ch8.mul, Nat.mul_comm]

/-- Mul for Ch16 is commutative. -/
theorem ch16_mul_comm (a b : ℕ) : Ch16.mul a b = Ch16.mul b a := by
  rw [Ch16.mul, Ch16.mul, Nat.mul_comm]

/-- Mul for Ch32 is commutative, NaN cases included. -/
theorem ch32_mul_comm (x y : F32) : Ch32.mul x y = Ch32.mul y x := by
  cases x <;> cases y <;> simp [Ch32.mul, F32.mul]
  rw [qMul_comm]

set_option maxRecDepth 10000 in
/-- The 8-bit through 32-bit round trip is the identity on every
representable byte, by evaluation of the exact binary32 model. -/
theorem ch8_ch32_roundtrip_all (v : Fin 256) :
    Ch32.toCh8 (Ch8.toCh32 v.val) = v.val := by
  revert v
  decide

/-! ### Claim theorems -/

/-- C1: Format::convert performs exactly the pipeline of the spec: it
extracts the four channels, rescales each to the destination width, and
applies the step-3 alpha/gamma transform exactly as the spec words it
(source to_linear, then decode/encode only when the alpha modes differ,
then destination from_linear, in that fixed order, to r, g, b only);
the alpha channel is never gamma-transformed, and identical
alpha/gamma tuples skip the whole step (pure bit-depth rescale). -/
theorem convert_is_spec_pipeline {PA CA PB CB : Type} (ops : ChanOps CB)
    (S : Format PA CA) (D : Format PB CB) (chanFrom : CA → CB) (p : PA) :
    Format.convert ops S D chanFrom p
      = D.with_rgba (convertSpecRgba ops S.tag D.tag chanFrom (S.rgba p)) ∧
    (Format.convertRgba ops S.tag D.tag chanFrom (S.rgba p)).a
      = chanFrom (S.rgba p).a ∧
    Format.convertRgba ops S.tag S.tag chanFrom (S.rgba p)
      = Rgba.map chanFrom (S.rgba p) :=
  ⟨congrArg D.with_rgba (convertRgba_eq_spec ops S.tag D.tag chanFrom (S.rgba p)),
   convertRgba_alpha ops S.tag D.tag chanFrom (S.rgba p),
   convertRgba_self ops S.tag chanFrom (S.rgba p)⟩

/-- C2: converting a pixel to its own format is the identity, for every
format whose with_rgba reconstructs the pixel its rgba decomposes (the
Format contract, satisfied by Mask, the concrete format of this source
tree); the bit-depth rescale is the blanket identity From impl and the
alpha/gamma step is skipped because the tags coincide. -/
theorem convert_self_is_identity {P C : Type} (ops : ChanOps C)
    (F : Format P C) (hF : ∀ y : P, F.with_rgba (F.rgba y) = y) (p : P) :
    Format.convert ops F F id p = p := by
  unfold Format.convert
  rw [convertRgba_self, Rgba.map_id]
  exact hF p

/-- Witness for C2 at the concrete Mask8 format and pixel value 7. -/
theorem convert_self_is_identity_witness :
    Format.convert ch8ops mask8Fmt mask8Fmt id 7 = 7 :=
  convert_self_is_identity ch8ops mask8Fmt (fun _ => rfl) 7

set_option maxRecDepth 10000 in
/-- C3, counterexample: at alpha = 1 the 8-bit premultiplied round trip
collapses 255 to 0 in both directions, an error of 255 units, far
outside one unit of least precision; and at the float width the encode
of the subnormal colour 2^-140 with alpha 2^-20 underflows to 0.0, so
the round trip returns 0.0, which is 512 units of least precision
(the subnormal ulp is 2^-149) away from the colour. -/
theorem premul_one_ulp_counterexample :
    (Ch8.div (Ch8.mul 255 1) 1 = 0 ∧
      ¬ (255 ≤ Ch8.div (Ch8.mul 255 1) 1 + 1) ∧
    Ch8.mul (Ch8.div 255 1) 1 = 0 ∧
      ¬ (255 ≤ Ch8.mul (Ch8.div 255 1) 1 + 1)) ∧
    (Ch32.div (Ch32.mul (.fin (mkRat 1 (2 ^ 140))) (.fin (mkRat 1 (2 ^ 20))))
        (.fin (mkRat 1 (2 ^ 20))) = .fin 0 ∧
      mkRat 1 (2 ^ 149) < mkRat 1 (2 ^ 140)) := by
  decide

/-- C3, amended: for the integer widths and every alpha above MIN, the
round trip decode (encode c a) a differs from c by at most
ceil(MAX / a) units (one unit only when a = MAX), and the reverse trip
encode (decode c a) a differs from c by at most one unit whenever
c is at most a (the valid premultiplied range). -/
theorem premul_roundtrip_error_bounds :
    (∀ c a : ℕ, c ≤ 255 → 1 ≤ a → a ≤ 255 →
      Ch8.div (Ch8.mul c a) a ≤ c + (254 / a + 1) ∧
        c ≤ Ch8.div (Ch8.mul c a) a + (254 / a + 1)) ∧
    (∀ c a : ℕ, c ≤ 65535 → 1 ≤ a → a ≤ 65535 →
      Ch16.div (Ch16.mul c a) a ≤ c + (65534 / a + 1) ∧
        c ≤ Ch16.div (Ch16.mul c a) a + (65534 / a + 1)) ∧
    (∀ c a : ℕ, c ≤ a → 1 ≤ a → a ≤ 255 →
      Ch8.mul (Ch8.div c a) a ≤ c + 1 ∧ c ≤ Ch8.mul (Ch8.div c a) a + 1) ∧
    (∀ c a : ℕ, c ≤ a → 1 ≤ a → a ≤ 65535 →
      Ch16.mul (Ch16.div c a) a ≤ c + 1 ∧
        c ≤ Ch16.mul (Ch16.div c a) a + 1) :=
  ⟨ch8_premul_roundtrip, ch16_premul_roundtrip,
   ch8_premul_reverse, ch16_premul_reverse⟩

/-- Witness for the amended C3 at concrete pairs. -/
theorem premul_roundtrip_error_bounds_witness :
    (Ch8.div (Ch8.mul 200 128) 128 ≤ 200 + (254 / 128 + 1) ∧
      200 ≤ Ch8.div (Ch8.mul 200 128) 128 + (254 / 128 + 1)) ∧
    (Ch8.mul (Ch8.div 100 200) 200 ≤ 100 + 1 ∧
      100 ≤ Ch8.mul (Ch8.div 100 200) 200 + 1) :=
  ⟨premul_roundtrip_error_bounds.1 200 128 (by norm_num) (by norm_num)
      (by norm_num),
   premul_roundtrip_error_bounds.2.2.1 100 200 (by norm_num) (by norm_num)
      (by norm_num)⟩

/-- C4: Mul for Ch32 applies no clamp, so multiplying the in-range value
1.0 by the raw f32 right-hand side 2.0 stores 2.0 in the channel, a
value outside the normalized range (it is not a fixed point of the
clamping constructor Ch32::new), contradicting the range invariant and
the guarantee documented on struct Ch32. -/
theorem ch32_mul_breaks_range_invariant :
    Ch32.mul (Ch32.new (.fin 1)) (.fin 2) = .fin 2 ∧
    Ch32.new (Ch32.mul (Ch32.new (.fin 1)) (.fin 2))
      ≠ Ch32.mul (Ch32.new (.fin 1)) (.fin 2) := by
  decide

/-- C5: although Ch32::new clamps NaN to 0.0, Mul for Ch32 bypasses the
constructor, so multiplying an in-range channel by the raw f32 NaN
stores NaN; comparing that value then makes partial_cmp return None, on
which Ord::cmp unwraps and panics. -/
theorem ch32_mul_nan_cmp_panics :
    Ch32.new F32.nan = .fin 0 ∧
    Ch32.mul (Ch32.new (.fin (mkRat 1 2))) F32.nan = F32.nan ∧
    Ch32.cmpOpt (Ch32.mul (Ch32.new (.fin (mkRat 1 2))) F32.nan) (.fin 0)
      = none := by
  decide

/-- C6: for every width, division clamps to MAX exactly when the scaled
quotient would exceed it, a zero divisor yields MIN rather than an
error, and consequently Premultiplied decode at alpha = MIN yields
colour MIN. -/
theorem div_clamps_and_zero_divisor_yields_min :
    (∀ a, Ch8.div a 0 = 0) ∧
    (∀ a b, Ch8.div a b ≤ 255) ∧
    (∀ a b, 0 < b → (255 < a * 256 / b → Ch8.div a b = 255) ∧
      (a * 256 / b ≤ 255 → Ch8.div a b = a * 256 / b)) ∧
    (∀ a, Ch16.div a 0 = 0) ∧
    (∀ a b, Ch16.div a b ≤ 65535) ∧
    (∀ a b, 0 < b → (65535 < a * 65536 / b → Ch16.div a b = 65535) ∧
      (a * 65536 / b ≤ 65535 → Ch16.div a b = a * 65536 / b)) ∧
    (∀ x, Ch32.div x (.fin 0) = .fin 0) ∧
    (∀ q v : ℚ, 0 < v →
      (1 < rnd32 (qDiv q v) → Ch32.div (.fin q) (.fin v) = .fin 1) ∧
      (rnd32 (qDiv q v) ≤ 1 →
        Ch32.div (.fin q) (.fin v) = .fin (rnd32 (qDiv q v)))) ∧
    (∀ c, alphaDecode ch8ops .premultiplied c 0 = 0) ∧
    (∀ c, alphaDecode ch16ops .premultiplied c 0 = 0) ∧
    (∀ x, alphaDecode ch32ops .premultiplied x (.fin 0) = .fin 0) :=
  ⟨ch8_div_zero, ch8_div_le_max, ch8_div_cases, ch16_div_zero,
   ch16_div_le_max, ch16_div_cases, ch32_div_zero, ch32_div_cases,
   decode_zero_alpha8, decode_zero_alpha16, decode_zero_alpha32⟩

/-- Witness for C6 at concrete inputs: a clamped quotient, a clamped
float quotient and a zero-alpha decode. -/
theorem div_clamps_and_zero_divisor_yields_min_witness :
    Ch8.div 255 1 = 255 ∧ Ch32.div (.fin 2) (.fin 1) = .fin 1 ∧
      alphaDecode ch8ops .premultiplied 77 0 = 0 :=
  ⟨(div_clamps_and_zero_divisor_yields_min.2.2.1 255 1 (by norm_num)).1
      (by norm_num),
   (div_clamps_and_zero_divisor_yields_min.2.2.2.2.2.2.2.1 2 1
      (by norm_num)).1 (by decide),
   div_clamps_and_zero_divisor_yields_min.2.2.2.2.2.2.2.2.1 77⟩

/-- C7: MAX * MAX = MAX and MAX * MIN = MIN at every width; for the
integer widths the replicated fixed-point multiply is within one unit
of least precision of the true rational product, and multiplication by
MAX is monotonic. -/
theorem mul_max_identities_accuracy_mono :
    (Ch8.mul 255 255 = 255 ∧ Ch8.mul 255 0 = 0) ∧
    (Ch16.mul 65535 65535 = 65535 ∧ Ch16.mul 65535 0 = 0) ∧
    (Ch32.mul (.fin 1) (.fin 1) = .fin 1 ∧
      Ch32.mul (.fin 1) (.fin 0) = .fin 0) ∧
    (∀ a b : ℕ, a ≤ 255 → b ≤ 255 →
      255 * Ch8.mul a b ≤ a * b + 255 ∧ a * b ≤ 255 * Ch8.mul a b + 255) ∧
    (∀ a b : ℕ, a ≤ 65535 → b ≤ 65535 →
      65535 * Ch16.mul a b ≤ a * b + 65535 ∧
        a * b ≤ 65535 * Ch16.mul a b + 65535) ∧
    (∀ x y : ℕ, x ≤ y → y ≤ 255 → Ch8.mul 255 x ≤ Ch8.mul 255 y) ∧
    (∀ x y : ℕ, x ≤ y → y ≤ 65535 → Ch16.mul 65535 x ≤ Ch16.mul 65535 y) :=
  ⟨by decide, by decide, by decide, ch8_mul_accurate, ch16_mul_accurate,
   ch8_mul_max_mono, ch16_mul_max_mono⟩

/-- Witness for C7 at concrete operands. -/
theorem mul_max_identities_accuracy_mono_witness :
    (255 * Ch8.mul 3 5 ≤ 3 * 5 + 255 ∧ 3 * 5 ≤ 255 * Ch8.mul 3 5 + 255) ∧
      Ch16.mul 65535 100 ≤ Ch16.mul 65535 200 :=
  ⟨mul_max_identities_accuracy_mono.2.2.2.1 3 5 (by norm_num) (by norm_num),
   mul_max_identities_accuracy_mono.2.2.2.2.2.2 100 200 (by norm_num)
      (by norm_num)⟩

/-- C8: widening 8 to 16 replicates the byte, which is multiplication by
257 (so MIN and MAX map exactly); narrowing 16 to 8 takes the high byte
(truncation); and narrowing after widening is the identity. -/
theorem widen_narrow_roundtrip :
    (∀ v, v ≤ 255 → Ch8.toCh16 v = 257 * v) ∧
    Ch8.toCh16 0 = 0 ∧ Ch8.toCh16 255 = 65535 ∧
    (∀ w, Ch16.toCh8 w = w / 256) ∧
    (∀ v, v ≤ 255 → Ch16.toCh8 (Ch8.toCh16 v) = v) := by
  refine ⟨ch8_toCh16_eq, by decide, by decide, ch16_toCh8_eq, ?_⟩
  intro v hv
  rw [ch8_toCh16_eq v hv, ch16_toCh8_eq]
  omega

/-- Witness for C8 at concrete values. -/
theorem widen_narrow_roundtrip_witness :
    Ch8.toCh16 77 = 257 * 77 ∧ Ch16.toCh8 (Ch8.toCh16 200) = 200 :=
  ⟨widen_narrow_roundtrip.1 77 (by norm_num),
   widen_narrow_roundtrip.2.2.2.2 200 (by norm_num)⟩

/-- C9: converting a byte to the f32 channel (division by 255.0, rounded
to the nearest binary32) and back (multiplication by 255.0 rounded to
nearest, then f32::round) returns the original byte, for every value
and not only the endpoints. -/
theorem ch8_via_ch32_roundtrip (v : ℕ) (hv : v ≤ 255) :
    Ch32.toCh8 (Ch8.toCh32 v) = v := by
  have h := ch8_ch32_roundtrip_all ⟨v, by omega⟩
  simpa using h

/-- Witness for C9 at the byte 200. -/
theorem ch8_via_ch32_roundtrip_witness :
    Ch32.toCh8 (Ch8.toCh32 200) = 200 :=
  ch8_via_ch32_roundtrip 200 (by norm_num)

/-- C10: channel multiplication is commutative at every width, the NaN
cases of the float width included. -/
theorem channel_mul_commutative :
    (∀ a b : ℕ, a ≤ 255 → b ≤ 255 → Ch8.mul a b = Ch8.mul b a) ∧
    (∀ a b : ℕ, a ≤ 65535 → b ≤ 65535 → Ch16.mul a b = Ch16.mul b a) ∧
    (∀ x y : F32, Ch32.mul x y = Ch32.mul y x) :=
  ⟨fun a b _ _ => ch8_mul_comm a b, fun a b _ _ => ch16_mul_comm a b,
   ch32_mul_comm⟩

/-- Witness for C10 at concrete operands. -/
theorem channel_mul_commutative_witness :
    Ch8.mul 3 7 = Ch8.mul 7 3 ∧
      Ch32.mul (.fin 1) F32.nan = Ch32.mul F32.nan (.fin 1) :=
  ⟨channel_mul_commutative.1 3 7 (by norm_num) (by norm_num),
   channel_mul_commutative.2.2 (.fin 1) F32.nan⟩

end Pix
